import Mathlib

/-!
Shallow embedding of the procedural terrain engine in `src/js/game.js`
(Perlin-style gradient noise, fractal Brownian motion, chunk generation,
the chunk cache of the `Terrain` class, classification and walkability),
together with theorems settling the specification claims.

Numbers: the JavaScript floating-point scalars are modelled as exact
rationals (`ℚ`); array indices and table entries as `ℕ`; chunk coordinates
as `ℤ`.  `Math.random()` is modelled as an explicit stream of rationals in
`[0, 1)` supplied to the constructor.  Fallible array access (a JavaScript
`TypeError` on indexing into `undefined`) is modelled with `Option`.
-/

namespace Game

/-- Source `lerp(t, a, b) = a + t * (b - a)` (game.js line 9). -/
def lerp (t a b : ℚ) : ℚ := a + t * (b - a)

namespace ImprovedNoise

/-- Source `fade(t)` (game.js line 28): `t*t*t*(t*(t*6-15)+10)`. -/
def fade (t : ℚ) : ℚ := t * t * t * (t * (t * 6 - 15) + 10)

/-- Source `grad(hash, x, y)` (game.js line 32): the low two bits of the
hash pick one of four gradient directions. -/
def grad (hash : ℕ) (x y : ℚ) : ℚ :=
  let h := hash &&& 3
  let u := if h < 2 then x else y
  let v := if h < 2 then y else x
  (if h &&& 1 = 0 then u else -u) + (if h &&& 2 = 0 then v else -v)

/-- Source `Math.floor(x) & 255` in `noise` (game.js line 40): for floors in
the 32-bit signed range the bit mask equals the non-negative residue
modulo 256. -/
def latticeCoord (x : ℚ) : ℕ := (⌊x⌋ % 256).toNat

/-- Source `A = p[X] + Y` (game.js line 47): hash of the left column of the
cell corners.  A missing table entry (JavaScript `undefined`) cannot occur
for a length-512 table, see the index-bound theorem; `getD` with default 0
models the lookup. -/
def cornerA (p : List ℕ) (x y : ℚ) : ℕ := p.getD (latticeCoord x) 0 + latticeCoord y

/-- Source `B = p[X + 1] + Y` (game.js line 48). -/
def cornerB (p : List ℕ) (x y : ℚ) : ℕ := p.getD (latticeCoord x + 1) 0 + latticeCoord y

/-- Source `noise(x, y)` (game.js lines 39-59): fade-weighted bilinear blend
of the four corner gradient contributions. -/
def noise (p : List ℕ) (x y : ℚ) : ℚ :=
  let xf := x - ⌊x⌋
  let yf := y - ⌊y⌋
  let u := fade xf
  let v := fade yf
  let A := cornerA p x y
  let B := cornerB p x y
  lerp v
    (lerp u (grad (p.getD A 0) xf yf) (grad (p.getD B 0) (xf - 1) yf))
    (lerp u (grad (p.getD (A + 1) 0) xf (yf - 1)) (grad (p.getD (B + 1) 0) (xf - 1) (yf - 1)))

/-- Source constructor (game.js lines 21-26): one table entry
`Math.floor(Math.random() * 256)` for a random draw `r`. -/
def seedEntry (r : ℚ) : ℕ := (⌊r * 256⌋).toNat

/-- Source constructor (game.js line 22): the 256 independent draws
`Array.from({length: 256}, () => Math.floor(Math.random() * 256))`,
with `rnd i` the i-th output of `Math.random()`. -/
def firstHalf (rnd : ℕ → ℚ) : List ℕ :=
  (List.range 256).map fun i => seedEntry (rnd i)

/-- Source constructor (game.js line 25): `this.#p = [...this.#p, ...this.#p]`
duplicates the 256 draws to a table of length 512. -/
def makeTable (rnd : ℕ → ℚ) : List ℕ := firstHalf rnd ++ firstHalf rnd

end ImprovedNoise

/-- Loop state of the `fbm` accumulation (game.js lines 64-67): the mutable
variables `value`, `amplitude`, `frequency`, `maxValue`. -/
structure FbmState where
  value : ℚ
  amplitude : ℚ
  frequency : ℚ
  maxValue : ℚ
deriving DecidableEq

/-- One iteration of the `fbm` loop body (game.js lines 69-74), with the
noise source abstracted as a function, exactly as the JavaScript `fbm`
receives the noise object as an argument. -/
def fbmStep (nz : ℚ → ℚ → ℚ) (x y lacunarity gain : ℚ) (s : FbmState) : FbmState :=
  { value := s.value + nz (x * s.frequency) (y * s.frequency) * s.amplitude
    amplitude := s.amplitude * gain
    frequency := s.frequency * lacunarity
    maxValue := s.maxValue + s.amplitude }

/-- The `fbm` loop (game.js lines 69-74) run for a given octave count,
starting from `value = 0`, `amplitude = 1`, `frequency = 1`, `maxValue = 0`. -/
def fbmIter (nz : ℚ → ℚ → ℚ) (x y lacunarity gain : ℚ) : ℕ → FbmState
  | 0 => ⟨0, 1, 1, 0⟩
  | n + 1 => fbmStep nz x y lacunarity gain (fbmIter nz x y lacunarity gain n)

/-- Source `fbm(x, y, noise, octaves = 8, lacunarity = 2.1, gain = 0.45)`
(game.js lines 63-77): accumulate the octaves then return
`value / maxValue`. -/
def fbm (x y : ℚ) (nz : ℚ → ℚ → ℚ) (octaves : ℕ)
    (lacunarity : ℚ) (gain : ℚ) : ℚ :=
  let s := fbmIter nz x y lacunarity gain octaves
  s.value / s.maxValue

/-- Source `Chunk` class fields (game.js lines 80-93). -/
structure Chunk where
  chunkX : ℤ
  chunkY : ℤ
  tileSize : ℚ
  size : ℕ
  tiles : List (List ℚ)
deriving DecidableEq

/-- Source `Chunk.generateTiles` (game.js lines 95-107): the cell at
`tiles[y][x]` holds `fbm(worldX * 0.03, worldY * 0.03, noise, 8, 2.1, 0.45)`
with `worldX = chunkX * size + x` and `worldY = chunkY * size + y`. -/
def Chunk.generateTiles (chunkX chunkY : ℤ) (size : ℕ) (p : List ℕ) : List (List ℚ) :=
  (List.range size).map fun y : ℕ =>
    (List.range size).map fun x : ℕ =>
      fbm (((chunkX * size + (x : ℤ) : ℤ) : ℚ) * 0.03) (((chunkY * size + (y : ℤ) : ℤ) : ℚ) * 0.03)
        (ImprovedNoise.noise p) 8 2.1 0.45

/-- Source `Chunk` constructor (game.js lines 87-93). -/
def Chunk.make (chunkX chunkY : ℤ) (tileSize : ℚ) (size : ℕ) (p : List ℕ) : Chunk :=
  ⟨chunkX, chunkY, tileSize, size, Chunk.generateTiles chunkX chunkY size p⟩

/-- State of the `Terrain` class (game.js lines 128-139).  The chunk map is
an association list in insertion order (the JavaScript `Map` keyed by the
string `chunkX,chunkY`; integer pairs are in bijection with those keys).
The `log` field is ghost instrumentation in the sense of spec section 8:
it records each coordinate pair for which the `Chunk` constructor has run,
and supports no other behavior. -/
structure Terrain where
  tileSize : ℚ
  chunkSize : ℕ
  noise : List ℕ
  chunks : List ((ℤ × ℤ) × Chunk)
  log : List (ℤ × ℤ)

/-- Lookup in the chunk map, first match wins (JavaScript `Map.get`; keys
are unique because insertion only happens after a failed `has`). -/
def lookupChunk : (ℤ × ℤ) → List ((ℤ × ℤ) × Chunk) → Option Chunk
  | _, [] => none
  | c, (k, ch) :: rest => if k = c then some ch else lookupChunk c rest

/-- Source `Terrain.getChunk` (game.js lines 141-148): return the cached
chunk if present, otherwise construct one (with hard-coded size 16) and
insert it.  Returns the chunk together with the updated terrain state. -/
def Terrain.getChunk (t : Terrain) (cx cy : ℤ) : Chunk × Terrain :=
  match lookupChunk (cx, cy) t.chunks with
  | some ch => (ch, t)
  | none =>
      let ch := Chunk.make cx cy t.tileSize 16 t.noise
      (ch, { t with chunks := t.chunks ++ [((cx, cy), ch)], log := t.log ++ [(cx, cy)] })

/-- Terrain classes in threshold order, named after the comments on
`Terrain.getColor` (game.js lines 150-158). -/
inductive TerrainClass where
  | water
  | sand
  | grass
  | dirt
  | rock
  | snow
deriving DecidableEq

/-- Height order of the classes (position of the branch in `getColor`). -/
def TerrainClass.rank : TerrainClass → ℕ
  | .water => 0
  | .sand => 1
  | .grass => 2
  | .dirt => 3
  | .rock => 4
  | .snow => 5

/-- Hex fill used by `Terrain.getColor` for each class (game.js lines 152-157). -/
def TerrainClass.hex : TerrainClass → String
  | .water => "#3366cc"
  | .sand => "#e2ca76"
  | .grass => "#996633"
  | .dirt => "#669933"
  | .rock => "#cccccc"
  | .snow => "#ffffff"

/-- Source `Terrain.getColor` (game.js lines 150-158), first variant, with
the Rock/Snow boundary at 0.75. -/
def Terrain.getColor (value : ℚ) : String :=
  let norm := (value + 1) / 2
  if norm < 0.43 then "#3366cc"
  else if norm < 0.45 then "#e2ca76"
  else if norm < 0.48 then "#996633"
  else if norm < 0.65 then "#669933"
  else if norm < 0.75 then "#cccccc"
  else "#ffffff"

/-- Source `Terrain.getColor` of the second variant (game.js lines 532-541),
identical except for the Rock/Snow boundary at 0.95. -/
def Terrain.getColor2 (value : ℚ) : String :=
  let norm := (value + 1) / 2
  if norm < 0.43 then "#3366cc"
  else if norm < 0.45 then "#e2ca76"
  else if norm < 0.48 then "#996633"
  else if norm < 0.65 then "#669933"
  else if norm < 0.95 then "#cccccc"
  else "#ffffff"

/-- The branch structure of `Terrain.getColor` (first variant) expressed on
the class labels of its comments. -/
def Terrain.classify (value : ℚ) : TerrainClass :=
  let norm := (value + 1) / 2
  if norm < 0.43 then .water
  else if norm < 0.45 then .sand
  else if norm < 0.48 then .grass
  else if norm < 0.65 then .dirt
  else if norm < 0.75 then .rock
  else .snow

/-- The branch structure of the second variant of `Terrain.getColor`. -/
def Terrain.classify2 (value : ℚ) : TerrainClass :=
  let norm := (value + 1) / 2
  if norm < 0.43 then .water
  else if norm < 0.45 then .sand
  else if norm < 0.48 then .grass
  else if norm < 0.65 then .dirt
  else if norm < 0.95 then .rock
  else .snow

/-- Source `Math.floor(x / this.#chunkSize)` in `Terrain.getValue`
(game.js lines 161-162). -/
def Terrain.chunkCoord (n : ℕ) (x : ℚ) : ℤ := ⌊x / (n : ℚ)⌋

/-- Source `((Math.floor(x) % chunkSize) + chunkSize) % chunkSize` in
`Terrain.getValue` (game.js lines 163-166); the JavaScript `%` is the
truncating remainder `Int.tmod`. -/
def Terrain.localCoord (n : ℕ) (x : ℚ) : ℤ :=
  (Int.tmod ⌊x⌋ (n : ℤ) + (n : ℤ)).tmod (n : ℤ)

/-- Source `Terrain.getValue` (game.js lines 160-169):
`chunk.tiles[localY][localX] ?? -1`.  A missing row (`tiles[localY]` is
`undefined`, so indexing it throws) is modelled as `none`; a missing cell
inside an existing row is JavaScript `undefined ?? -1`, modelled by `getD`
with default `-1` (and `-1` directly for a negative cell index). -/
def Terrain.getValue (t : Terrain) (x y : ℚ) : Option (ℚ × Terrain) :=
  let chunkX := Terrain.chunkCoord t.chunkSize x
  let chunkY := Terrain.chunkCoord t.chunkSize y
  let localX := Terrain.localCoord t.chunkSize x
  let localY := Terrain.localCoord t.chunkSize y
  let r := t.getChunk chunkX chunkY
  match (if 0 ≤ localY then r.1.tiles[localY.toNat]? else none) with
  | none => none
  | some row =>
      some ((if 0 ≤ localX then row.getD localX.toNat (-1) else (-1)), r.2)

/-- Source `Terrain.isPositionWalkable` (game.js lines 171-175):
`(value + 1) / 2 >= 0.43`. -/
def Terrain.isPositionWalkable (t : Terrain) (x y : ℚ) : Option (Bool × Terrain) :=
  match t.getValue x y with
  | none => none
  | some (value, t2) => some (decide ((value + 1) / 2 ≥ 0.43), t2)

/-- The offsets `-viewRadius .. viewRadius` with `viewRadius = 3`
(game.js lines 178, 182-183). -/
def viewOffsets : List ℤ := (List.range 7).map fun i : ℕ => (i : ℤ) - 3

/-- The chunk coordinates visited by `Terrain.draw` (game.js lines 177-190),
in loop order: `dy` outer, `dx` inner, each offset from the containing
chunk of the camera. -/
def Terrain.drawCoords (t : Terrain) (camX camY : ℚ) : List (ℤ × ℤ) :=
  let camChunkX := Terrain.chunkCoord t.chunkSize camX
  let camChunkY := Terrain.chunkCoord t.chunkSize camY
  viewOffsets.flatMap fun dy => viewOffsets.map fun dx => (camChunkX + dx, camChunkY + dy)

/-- Source `Terrain.draw` (game.js lines 177-190) restricted to its effect
on the terrain state: fetch (and thereby possibly create) every chunk of
the view window.  The per-chunk canvas rendering writes no terrain state
and is out of scope. -/
def Terrain.draw (t : Terrain) (camX camY : ℚ) : Terrain :=
  (t.drawCoords camX camY).foldl (fun s c => (s.getChunk c.1 c.2).2) t

/-- Source `new Terrain(TILE_SIZE, 16, noise)` with `TILE_SIZE = 20`
(game.js lines 7, 342, constructor lines 134-139): fresh empty cache. -/
def Terrain.make (p : List ℕ) : Terrain :=
  { tileSize := 20, chunkSize := 16, noise := p, chunks := [], log := [] }

/-- N successive calls of `Terrain.getChunk` at one coordinate pair,
returning the list of returned chunks and the final state. -/
def Terrain.callChunkN (c : ℤ × ℤ) : ℕ → Terrain → List Chunk × Terrain
  | 0, t => ([], t)
  | n + 1, t =>
      let r := t.getChunk c.1 c.2
      let rest := Terrain.callChunkN c n r.2
      (r.1 :: rest.1, rest.2)

/-- Every cached chunk has the 16 x 16 tile grid the `Chunk` constructor
produces.  Holds for every state the program reaches, since chunks enter
the cache only through the constructor. -/
def Terrain.WellFormed (t : Terrain) : Prop :=
  ∀ c ch, lookupChunk c t.chunks = some ch →
    ch.tiles.length = 16 ∧ ∀ row ∈ ch.tiles, row.length = 16

/-- Stream of zeros, a legal sequence of `Math.random()` outputs. -/
def zeroStream : ℕ → ℚ := fun _ => 0

/-- Concrete noise function used to exercise `fbm` with out-of-range gain:
+1 at arguments up to 1, otherwise -1; all its values lie in `[-1, 1]`. -/
def nzSwitch : ℚ → ℚ → ℚ := fun a _ => if a ≤ 1 then 1 else -1

end Game

namespace Game

/- ### Basic facts about the noise primitive -/

theorem fade_zero : ImprovedNoise.fade 0 = 0 := by
  simp [ImprovedNoise.fade]

theorem grad_zero (h : ℕ) : ImprovedNoise.grad h 0 0 = 0 := by
  simp [ImprovedNoise.grad]

theorem lerp_zero_left (a b : ℚ) : lerp 0 a b = a := by
  simp [lerp]

/-- C6: at an integer lattice point both fractional parts vanish, every
corner whose offsets are both zero contributes `grad _ 0 0 = 0`, the fade
weights are zero, and the blend collapses onto those corners, giving noise
exactly 0 for every table. -/
theorem noise_int_lattice_eq_zero (p : List ℕ) (a b : ℤ) :
    ImprovedNoise.noise p (a : ℚ) (b : ℚ) = 0 := by
  unfold ImprovedNoise.noise
  rw [Int.floor_intCast, Int.floor_intCast, sub_self, sub_self]
  simp [fade_zero, lerp_zero_left, grad_zero]

/- ### Coordinate decomposition (Terrain.getValue) -/

theorem floor_div_natCast (x : ℚ) (n : ℕ) (hn : 0 < n) :
    ⌊x / (n : ℚ)⌋ = ⌊x⌋ / (n : ℤ) := by
  have hnQ : (0 : ℚ) < (n : ℚ) := by exact_mod_cast hn
  have hnZ : (0 : ℤ) < (n : ℤ) := by exact_mod_cast hn
  have hmod := Int.emod_nonneg ⌊x⌋ hnZ.ne'
  have hlt := Int.emod_lt_of_pos ⌊x⌋ hnZ
  have hdiv : (⌊x⌋ / (n : ℤ)) * (n : ℤ) + ⌊x⌋ % (n : ℤ) = ⌊x⌋ := by
    rw [mul_comm]
    exact Int.ediv_add_emod ⌊x⌋ (n : ℤ)
  rw [Int.floor_eq_iff]
  constructor
  · rw [le_div_iff₀ hnQ]
    have h1 : (⌊x⌋ / (n : ℤ)) * (n : ℤ) ≤ ⌊x⌋ := by linarith
    have h1Q : ((⌊x⌋ / (n : ℤ) : ℤ) : ℚ) * (n : ℚ) ≤ (⌊x⌋ : ℚ) := by exact_mod_cast h1
    linarith [Int.floor_le x]
  · rw [div_lt_iff₀ hnQ]
    have h2 : ⌊x⌋ + 1 ≤ (⌊x⌋ / (n : ℤ) + 1) * (n : ℤ) := by
      have hexp : (⌊x⌋ / (n : ℤ) + 1) * (n : ℤ) = (⌊x⌋ / (n : ℤ)) * (n : ℤ) + (n : ℤ) := by
        ring
      rw [hexp]
      linarith
    have h2Q : ((⌊x⌋ : ℤ) : ℚ) + 1 ≤ (((⌊x⌋ / (n : ℤ) : ℤ) : ℚ) + 1) * (n : ℚ) := by
      exact_mod_cast h2
    have hfl := Int.lt_floor_add_one x
    linarith

theorem neg_tmod_eq (a b : ℤ) : Int.tmod (-a) b = -Int.tmod a b := by
  rw [Int.tmod_def, Int.tmod_def, Int.neg_tdiv]
  ring

theorem double_tmod_eq_emod (w : ℤ) (n : ℕ) (hn : 0 < n) :
    (Int.tmod w (n : ℤ) + (n : ℤ)).tmod (n : ℤ) = w % (n : ℤ) := by
  have hnZ : (0 : ℤ) < (n : ℤ) := by exact_mod_cast hn
  have hlow : -(n : ℤ) < Int.tmod w (n : ℤ) := by
    rcases le_or_lt 0 w with hw | hw
    · have := Int.tmod_nonneg (n : ℤ) hw
      omega
    · have h := Int.tmod_lt_of_pos (-w) hnZ
      rw [neg_tmod_eq] at h
      omega
  have hnn : 0 ≤ Int.tmod w (n : ℤ) + (n : ℤ) := by omega
  rw [Int.tmod_eq_emod hnn (le_of_lt hnZ), Int.tmod_def]
  have hexp : w - (n : ℤ) * w.tdiv (n : ℤ) + (n : ℤ) =
      w + (n : ℤ) * (1 - w.tdiv (n : ℤ)) := by
    ring
  rw [hexp, Int.add_mul_emod_self_left]

theorem localCoord_eq_emod (n : ℕ) (hn : 0 < n) (x : ℚ) :
    Terrain.localCoord n x = ⌊x⌋ % (n : ℤ) :=
  double_tmod_eq_emod ⌊x⌋ n hn

theorem localCoord_nonneg (n : ℕ) (hn : 0 < n) (x : ℚ) :
    0 ≤ Terrain.localCoord n x := by
  rw [localCoord_eq_emod n hn]
  have hnZ : (0 : ℤ) < (n : ℤ) := by exact_mod_cast hn
  exact Int.emod_nonneg ⌊x⌋ hnZ.ne'

theorem localCoord_lt (n : ℕ) (hn : 0 < n) (x : ℚ) :
    Terrain.localCoord n x < (n : ℤ) := by
  rw [localCoord_eq_emod n hn]
  exact Int.emod_lt_of_pos ⌊x⌋ (by exact_mod_cast hn)

theorem chunkCoord_mul_add_localCoord (n : ℕ) (hn : 0 < n) (x : ℚ) :
    Terrain.chunkCoord n x * (n : ℤ) + Terrain.localCoord n x = ⌊x⌋ := by
  rw [Terrain.chunkCoord, floor_div_natCast x n hn, localCoord_eq_emod n hn, mul_comm]
  exact Int.ediv_add_emod ⌊x⌋ (n : ℤ)

theorem generateTiles_cell (cx cy : ℤ) (size : ℕ) (p : List ℕ) (lx ly : ℕ)
    (hx : lx < size) (hy : ly < size) :
    ((Chunk.generateTiles cx cy size p)[ly]?.bind fun row => row[lx]?) =
      some (fbm (((cx * size + lx : ℤ) : ℚ) * 0.03) (((cy * size + ly : ℤ) : ℚ) * 0.03)
        (ImprovedNoise.noise p) 8 2.1 0.45) := by
  unfold Chunk.generateTiles
  rw [List.getElem?_map, List.getElem?_range hy]
  simp [List.getElem?_map, List.getElem?_range hx]

/-- C2: for every rational world coordinate pair, the decomposition of
`Terrain.getValue` reconstructs the floor of the coordinate
(`chunkX * chunkSize + localX = floor x`, symmetrically in y), the local
coordinates lie in `[0, chunkSize)` (negative coordinates included), and
at chunk size 16 the decomposed cell of `Chunk.generateTiles` is generated
from exactly that floor world coordinate. -/
theorem decomposition_bijection (n : ℕ) (hn : 0 < n) (x y : ℚ) (p : List ℕ) :
    Terrain.chunkCoord n x * (n : ℤ) + Terrain.localCoord n x = ⌊x⌋ ∧
    Terrain.chunkCoord n y * (n : ℤ) + Terrain.localCoord n y = ⌊y⌋ ∧
    0 ≤ Terrain.localCoord n x ∧ Terrain.localCoord n x < (n : ℤ) ∧
    0 ≤ Terrain.localCoord n y ∧ Terrain.localCoord n y < (n : ℤ) ∧
    ((Chunk.generateTiles (Terrain.chunkCoord 16 x) (Terrain.chunkCoord 16 y) 16
          p)[(Terrain.localCoord 16 y).toNat]?.bind
        fun row => row[(Terrain.localCoord 16 x).toNat]?) =
      some (fbm ((⌊x⌋ : ℚ) * 0.03) ((⌊y⌋ : ℚ) * 0.03) (ImprovedNoise.noise p) 8 2.1 0.45) := by
  have h16 : (0 : ℕ) < 16 := by norm_num
  have hxN : ((Terrain.localCoord 16 x).toNat : ℤ) = Terrain.localCoord 16 x :=
    Int.toNat_of_nonneg (localCoord_nonneg 16 h16 x)
  have hyN : ((Terrain.localCoord 16 y).toNat : ℤ) = Terrain.localCoord 16 y :=
    Int.toNat_of_nonneg (localCoord_nonneg 16 h16 y)
  have hxlt : (Terrain.localCoord 16 x).toNat < 16 := by
    have := localCoord_lt 16 h16 x
    omega
  have hylt : (Terrain.localCoord 16 y).toNat < 16 := by
    have := localCoord_lt 16 h16 y
    omega
  refine ⟨chunkCoord_mul_add_localCoord n hn x, chunkCoord_mul_add_localCoord n hn y,
    localCoord_nonneg n hn x, localCoord_lt n hn x,
    localCoord_nonneg n hn y, localCoord_lt n hn y, ?_⟩
  rw [generateTiles_cell _ _ 16 p _ _ hxlt hylt]
  have hwx : Terrain.chunkCoord 16 x * ((16 : ℕ) : ℤ) + ((Terrain.localCoord 16 x).toNat : ℤ) =
      ⌊x⌋ := by
    rw [hxN]
    exact_mod_cast chunkCoord_mul_add_localCoord 16 h16 x
  have hwy : Terrain.chunkCoord 16 y * ((16 : ℕ) : ℤ) + ((Terrain.localCoord 16 y).toNat : ℤ) =
      ⌊y⌋ := by
    rw [hyN]
    exact_mod_cast chunkCoord_mul_add_localCoord 16 h16 y
  rw [hwx, hwy]

/- ### The chunk cache (Terrain.getChunk) -/

theorem lookupChunk_append (c : ℤ × ℤ) (l1 l2 : List ((ℤ × ℤ) × Chunk)) :
    lookupChunk c (l1 ++ l2) =
      match lookupChunk c l1 with
      | some ch => some ch
      | none => lookupChunk c l2 := by
  induction l1 with
  | nil => simp [lookupChunk]
  | cons hd tl ih =>
      obtain ⟨k, ch⟩ := hd
      by_cases hk : k = c <;> simp [lookupChunk, hk, ih]

theorem getChunk_cached (t : Terrain) (cx cy : ℤ) (ch : Chunk)
    (h : lookupChunk (cx, cy) t.chunks = some ch) :
    t.getChunk cx cy = (ch, t) := by
  unfold Terrain.getChunk
  rw [h]

theorem getChunk_fresh (t : Terrain) (cx cy : ℤ)
    (h : lookupChunk (cx, cy) t.chunks = none) :
    t.getChunk cx cy =
      (Chunk.make cx cy t.tileSize 16 t.noise,
       { t with
          chunks := t.chunks ++ [((cx, cy), Chunk.make cx cy t.tileSize 16 t.noise)],
          log := t.log ++ [(cx, cy)] }) := by
  unfold Terrain.getChunk
  rw [h]

theorem getChunk_preserves (t : Terrain) (c : ℤ × ℤ) (ch : Chunk) (cx cy : ℤ)
    (h : lookupChunk c t.chunks = some ch) :
    lookupChunk c ((t.getChunk cx cy).2).chunks = some ch := by
  unfold Terrain.getChunk
  cases hl : lookupChunk (cx, cy) t.chunks with
  | some ch2 => simpa using h
  | none =>
      simp only [lookupChunk_append, h]

theorem callChunkN_cached (a b : ℤ) (ch : Chunk) (n : ℕ) (t : Terrain)
    (h : lookupChunk (a, b) t.chunks = some ch) :
    Terrain.callChunkN (a, b) n t = (List.replicate n ch, t) := by
  induction n with
  | zero => simp [Terrain.callChunkN]
  | succ n ih =>
      unfold Terrain.callChunkN
      rw [getChunk_cached t a b ch h]
      simp [ih, List.replicate_succ]

/-- C1: starting from the fresh terrain the game constructs, N calls (N at
least 1) of `Terrain.getChunk` at one coordinate pair run the `Chunk`
constructor exactly once for that pair (the construction log holds it once),
every call returns the chunk the first call inserted, the cache still maps
the pair to that chunk, and no later `getChunk` call at any coordinate ever
replaces a cached chunk. -/
theorem getChunk_at_most_once_generation (p : List ℕ) (c : ℤ × ℤ) (N : ℕ) (hN : 1 ≤ N) :
    (Terrain.callChunkN c N (Terrain.make p)).2.log.count c = 1 ∧
    (Terrain.callChunkN c N (Terrain.make p)).1 =
      List.replicate N (Chunk.make c.1 c.2 20 16 p) ∧
    lookupChunk c (Terrain.callChunkN c N (Terrain.make p)).2.chunks =
      some (Chunk.make c.1 c.2 20 16 p) ∧
    (∀ (t : Terrain) (c2 : ℤ × ℤ) (ch : Chunk), lookupChunk c t.chunks = some ch →
      lookupChunk c ((t.getChunk c2.1 c2.2).2).chunks = some ch) := by
  obtain ⟨a, b⟩ := c
  obtain ⟨m, rfl⟩ : ∃ m, N = m + 1 := ⟨N - 1, by omega⟩
  have hcached : lookupChunk (a, b)
      (Terrain.mk 20 16 p [((a, b), Chunk.make a b 20 16 p)] [(a, b)]).chunks =
      some (Chunk.make a b 20 16 p) := by
    simp [lookupChunk]
  have hstep : Terrain.callChunkN (a, b) (m + 1) (Terrain.make p) =
      (Chunk.make a b 20 16 p ::
        (Terrain.callChunkN (a, b) m
          (Terrain.mk 20 16 p [((a, b), Chunk.make a b 20 16 p)] [(a, b)])).1,
       (Terrain.callChunkN (a, b) m
          (Terrain.mk 20 16 p [((a, b), Chunk.make a b 20 16 p)] [(a, b)])).2) := rfl
  rw [callChunkN_cached a b (Chunk.make a b 20 16 p) m _ hcached] at hstep
  rw [hstep]
  exact ⟨by simp, by simp [List.replicate_succ], by simpa using hcached,
    fun t c2 ch2 h => getChunk_preserves t (a, b) ch2 c2.1 c2.2 h⟩

/- ### The view window (Terrain.draw) and demand generation -/

theorem mem_viewOffsets (d : ℤ) : d ∈ viewOffsets ↔ -3 ≤ d ∧ d ≤ 3 := by
  simp only [viewOffsets, List.mem_map, List.mem_range]
  constructor
  · rintro ⟨i, hi, rfl⟩
    omega
  · intro h
    exact ⟨(d + 3).toNat, by omega, by omega⟩

theorem mem_drawCoords (t : Terrain) (camX camY : ℚ) (c : ℤ × ℤ) :
    c ∈ t.drawCoords camX camY ↔
      max |c.1 - Terrain.chunkCoord t.chunkSize camX|
        |c.2 - Terrain.chunkCoord t.chunkSize camY| ≤ 3 := by
  simp only [Terrain.drawCoords, List.mem_flatMap, List.mem_map]
  rw [max_le_iff, abs_le, abs_le]
  constructor
  · rintro ⟨dy, hdy, dx, hdx, heq⟩
    rw [mem_viewOffsets] at hdy hdx
    rw [Prod.ext_iff] at heq
    simp only at heq
    omega
  · intro h
    refine ⟨c.2 - Terrain.chunkCoord t.chunkSize camY, ?_,
      c.1 - Terrain.chunkCoord t.chunkSize camX, ?_, ?_⟩
    · rw [mem_viewOffsets]
      omega
    · rw [mem_viewOffsets]
      omega
    · rw [Prod.ext_iff]
      simp only
      omega

theorem getChunk_log_cases (t : Terrain) (cx cy : ℤ) :
    ((t.getChunk cx cy).2).log = t.log ∨
      ((t.getChunk cx cy).2).log = t.log ++ [(cx, cy)] := by
  cases hl : lookupChunk (cx, cy) t.chunks
  · right
    simp [Terrain.getChunk, hl]
  · left
    simp [Terrain.getChunk, hl]

theorem foldl_getChunk_log (coords : List (ℤ × ℤ)) (t : Terrain) (c : ℤ × ℤ)
    (h : c ∈ (coords.foldl (fun s k => (s.getChunk k.1 k.2).2) t).log) :
    c ∈ t.log ∨ c ∈ coords := by
  induction coords generalizing t with
  | nil => simpa using h
  | cons hd tl ih =>
      simp only [List.foldl_cons] at h
      rcases ih _ h with h1 | h1
      · rcases getChunk_log_cases t hd.1 hd.2 with h2 | h2
        · rw [h2] at h1
          exact Or.inl h1
        · rw [h2] at h1
          rcases List.mem_append.mp h1 with h3 | h3
          · exact Or.inl h3
          · right
            simp only [List.mem_singleton] at h3
            simp [h3]
      · right
        exact List.mem_cons_of_mem _ h1

theorem draw_log_sub (t : Terrain) (camX camY : ℚ) (c : ℤ × ℤ)
    (h : c ∈ (t.draw camX camY).log) :
    c ∈ t.log ∨ c ∈ t.drawCoords camX camY :=
  foldl_getChunk_log (t.drawCoords camX camY) t c h

theorem getValue_state (t : Terrain) (x y v : ℚ) (t2 : Terrain)
    (h : t.getValue x y = some (v, t2)) :
    t2 = (t.getChunk (Terrain.chunkCoord t.chunkSize x)
      (Terrain.chunkCoord t.chunkSize y)).2 := by
  simp only [Terrain.getValue] at h
  split at h
  · exact absurd h (by simp)
  · rw [Option.some.injEq, Prod.mk.injEq] at h
    exact h.2.symm

theorem getValue_log_sub (t : Terrain) (x y v : ℚ) (t2 : Terrain)
    (h : t.getValue x y = some (v, t2)) (c : ℤ × ℤ) (hc : c ∈ t2.log) :
    c ∈ t.log ∨
      c = (Terrain.chunkCoord t.chunkSize x, Terrain.chunkCoord t.chunkSize y) := by
  rw [getValue_state t x y v t2 h] at hc
  rcases getChunk_log_cases t (Terrain.chunkCoord t.chunkSize x)
      (Terrain.chunkCoord t.chunkSize y) with h2 | h2
  · rw [h2] at hc
    exact Or.inl hc
  · rw [h2] at hc
    rcases List.mem_append.mp hc with h3 | h3
    · exact Or.inl h3
    · right
      simpa using h3

/- ### Shape of generated chunks and evaluation of Terrain.getValue -/

theorem generateTiles_length (cx cy : ℤ) (size : ℕ) (p : List ℕ) :
    (Chunk.generateTiles cx cy size p).length = size := by
  simp [Chunk.generateTiles]

theorem generateTiles_row_length (cx cy : ℤ) (size : ℕ) (p : List ℕ) (row : List ℚ)
    (h : row ∈ Chunk.generateTiles cx cy size p) : row.length = size := by
  simp only [Chunk.generateTiles, List.mem_map] at h
  obtain ⟨i, hi, rfl⟩ := h
  simp

theorem getChunk_shape (t : Terrain) (hwf : t.WellFormed) (cx cy : ℤ) :
    (t.getChunk cx cy).1.tiles.length = 16 ∧
      ∀ row ∈ (t.getChunk cx cy).1.tiles, row.length = 16 := by
  cases hl : lookupChunk (cx, cy) t.chunks with
  | none =>
      rw [getChunk_fresh t cx cy hl]
      exact ⟨generateTiles_length cx cy 16 t.noise,
        fun row hr => generateTiles_row_length cx cy 16 t.noise row hr⟩
  | some ch =>
      rw [getChunk_cached t cx cy ch hl]
      exact hwf (cx, cy) ch hl

theorem getValue_eval (t : Terrain) (x y : ℚ) (h16 : t.chunkSize = 16)
    (hwf : t.WellFormed) :
    ∃ row v,
      ((t.getChunk (Terrain.chunkCoord 16 x)
            (Terrain.chunkCoord 16 y)).1.tiles)[(Terrain.localCoord 16 y).toNat]? =
          some row ∧
      row[(Terrain.localCoord 16 x).toNat]? = some v ∧
      t.getValue x y =
        some (v, (t.getChunk (Terrain.chunkCoord 16 x) (Terrain.chunkCoord 16 y)).2) := by
  have h16' : (0 : ℕ) < 16 := by norm_num
  obtain ⟨hlen, hrows⟩ := getChunk_shape t hwf (Terrain.chunkCoord 16 x)
    (Terrain.chunkCoord 16 y)
  have hly : (Terrain.localCoord 16 y).toNat < 16 := by
    have := localCoord_lt 16 h16' y
    omega
  have hlx : (Terrain.localCoord 16 x).toNat < 16 := by
    have := localCoord_lt 16 h16' x
    omega
  have hrow : ∃ row,
      ((t.getChunk (Terrain.chunkCoord 16 x)
          (Terrain.chunkCoord 16 y)).1.tiles)[(Terrain.localCoord 16 y).toNat]? =
        some row :=
    ⟨_, List.getElem?_eq_some_iff.mpr ⟨by omega, rfl⟩⟩
  obtain ⟨row, hrowEq⟩ := hrow
  have hrowMem : row ∈ (t.getChunk (Terrain.chunkCoord 16 x)
      (Terrain.chunkCoord 16 y)).1.tiles := List.getElem?_mem hrowEq
  have hrowLen : row.length = 16 := hrows row hrowMem
  have hcell : ∃ v, row[(Terrain.localCoord 16 x).toNat]? = some v :=
    ⟨_, List.getElem?_eq_some_iff.mpr ⟨by omega, rfl⟩⟩
  obtain ⟨v, hcellEq⟩ := hcell
  refine ⟨row, v, hrowEq, hcellEq, ?_⟩
  simp only [Terrain.getValue, h16]
  rw [if_pos (localCoord_nonneg 16 h16' y), hrowEq]
  dsimp only
  rw [if_pos (localCoord_nonneg 16 h16' x)]
  rw [List.getD_eq_getElem?_getD, hcellEq]
  rfl

/-- C5: with the configured chunk size 16 and a cache whose chunks all came
from the Chunk constructor, the decomposed local index is always inside the
generated 16 x 16 grid, so `Terrain.getValue` is total: the row exists, the
cell exists, and the call returns exactly that stored grid scalar (the `-1`
default of `tiles[localY][localX] ?? -1` is never the result for an in-range
cell, and no out-of-grid access can arise). -/
theorem getValue_total_and_stored (t : Terrain) (x y : ℚ) (h16 : t.chunkSize = 16)
    (hwf : t.WellFormed) :
    ∃ row v,
      ((t.getChunk (Terrain.chunkCoord 16 x)
            (Terrain.chunkCoord 16 y)).1.tiles)[(Terrain.localCoord 16 y).toNat]? =
          some row ∧
      row[(Terrain.localCoord 16 x).toNat]? = some v ∧
      t.getValue x y =
        some (v, (t.getChunk (Terrain.chunkCoord 16 x) (Terrain.chunkCoord 16 y)).2) :=
  getValue_eval t x y h16 hwf

/-- Witness for C5 at the freshly constructed terrain and the query
coordinate (-5/2, 7/3). -/
theorem getValue_total_and_stored_witness :
    (Terrain.make (List.replicate 512 0)).chunkSize = 16 ∧
    (Terrain.make (List.replicate 512 0)).WellFormed ∧
    (∃ row v,
      (((Terrain.make (List.replicate 512 0)).getChunk (Terrain.chunkCoord 16 (-5/2))
            (Terrain.chunkCoord 16 (7/3))).1.tiles)[(Terrain.localCoord 16 (7/3)).toNat]? =
          some row ∧
      row[(Terrain.localCoord 16 (-5/2)).toNat]? = some v ∧
      (Terrain.make (List.replicate 512 0)).getValue (-5/2) (7/3) =
        some (v, ((Terrain.make (List.replicate 512 0)).getChunk
          (Terrain.chunkCoord 16 (-5/2)) (Terrain.chunkCoord 16 (7/3))).2)) := by
  have hwf : (Terrain.make (List.replicate 512 0)).WellFormed := fun c ch h =>
    Option.noConfusion h
  exact ⟨rfl, hwf, getValue_total_and_stored _ (-5/2) (7/3) rfl hwf⟩

/-- C3 (amended): the chunk coordinates visited by `Terrain.draw` are
exactly those within Chebyshev distance 3 (the view radius) of the
containing chunk of the camera, inclusive, and a draw call creates chunks
only at visited coordinates; however draw is not the sole creation trigger:
a `Terrain.getValue` query creates at most the containing chunk of its own
query coordinate, on demand. -/
theorem draw_window_and_demand_creation :
    (∀ (t : Terrain) (camX camY : ℚ) (c : ℤ × ℤ),
        c ∈ t.drawCoords camX camY ↔
          max |c.1 - Terrain.chunkCoord t.chunkSize camX|
            |c.2 - Terrain.chunkCoord t.chunkSize camY| ≤ 3) ∧
    (∀ (t : Terrain) (camX camY : ℚ) (c : ℤ × ℤ), c ∈ (t.draw camX camY).log →
        c ∈ t.log ∨ c ∈ t.drawCoords camX camY) ∧
    (∀ (t : Terrain) (x y v : ℚ) (t2 : Terrain), t.getValue x y = some (v, t2) →
        ∀ c ∈ t2.log, c ∈ t.log ∨
          c = (Terrain.chunkCoord t.chunkSize x, Terrain.chunkCoord t.chunkSize y)) :=
  ⟨mem_drawCoords, draw_log_sub, fun t x y v t2 h c hc => getValue_log_sub t x y v t2 h c hc⟩

/-- Witness for the amended C3: chunk coordinate (1, 2) lies in the view
window of a camera at the origin. -/
theorem draw_window_and_demand_creation_witness :
    (max |(1 : ℤ) - Terrain.chunkCoord (Terrain.make []).chunkSize 0|
        |(2 : ℤ) - Terrain.chunkCoord (Terrain.make []).chunkSize 0| ≤ 3) ∧
    (1, 2) ∈ (Terrain.make []).drawCoords 0 0 := by
  have hc : Terrain.chunkCoord (Terrain.make []).chunkSize 0 = 0 := by
    simp [Terrain.chunkCoord, Terrain.make]
  have hb : max |(1 : ℤ) - Terrain.chunkCoord (Terrain.make []).chunkSize 0|
      |(2 : ℤ) - Terrain.chunkCoord (Terrain.make []).chunkSize 0| ≤ 3 := by
    rw [hc]
    norm_num
  exact ⟨hb, (draw_window_and_demand_creation.1 (Terrain.make []) 0 0 (1, 2)).mpr hb⟩

/-- C3 as stated is refuted: starting from the fresh terrain (construction
log empty), a single `Terrain.getValue` query - no draw call involved -
runs the Chunk constructor: afterwards the log holds the containing chunk
(0, 0) of the queried coordinate. -/
theorem chunk_created_without_draw :
    (Terrain.make (List.replicate 512 0)).log = [] ∧
    ((Terrain.make (List.replicate 512 0)).getValue 0 0).map (fun r => r.2.log) =
      some [(0, 0)] := by
  have hwf : (Terrain.make (List.replicate 512 0)).WellFormed := fun c ch h =>
    Option.noConfusion h
  obtain ⟨row, v, h1, h2, h3⟩ :=
    getValue_eval (Terrain.make (List.replicate 512 0)) 0 0 rfl hwf
  refine ⟨rfl, ?_⟩
  rw [h3, Option.map_some']
  have hcx : Terrain.chunkCoord 16 (0 : ℚ) = 0 := by
    simp [Terrain.chunkCoord]
  rw [hcx]
  rfl

/- ### Classification (Terrain.getColor) and walkability -/

set_option maxHeartbeats 1000000 in
theorem classify_water_iff (v : ℚ) :
    Terrain.classify v = TerrainClass.water ↔ (v + 1) / 2 < 0.43 := by
  simp only [Terrain.classify]
  split_ifs with h1 h2 h3 h4 h5 <;>
    constructor <;>
    intro hh <;>
    first
      | rfl
      | (exact absurd hh (by decide))
      | (constructor <;> linarith)
      | linarith
      | (exfalso; rcases hh with ⟨ha, hb⟩; linarith)
      | (exfalso; linarith)

set_option maxHeartbeats 1000000 in
theorem classify_sand_iff (v : ℚ) :
    Terrain.classify v = TerrainClass.sand ↔ 0.43 ≤ (v + 1) / 2 ∧ (v + 1) / 2 < 0.45 := by
  simp only [Terrain.classify]
  split_ifs with h1 h2 h3 h4 h5 <;>
    constructor <;>
    intro hh <;>
    first
      | rfl
      | (exact absurd hh (by decide))
      | (constructor <;> linarith)
      | linarith
      | (exfalso; rcases hh with ⟨ha, hb⟩; linarith)
      | (exfalso; linarith)

set_option maxHeartbeats 1000000 in
theorem classify_grass_iff (v : ℚ) :
    Terrain.classify v = TerrainClass.grass ↔ 0.45 ≤ (v + 1) / 2 ∧ (v + 1) / 2 < 0.48 := by
  simp only [Terrain.classify]
  split_ifs with h1 h2 h3 h4 h5 <;>
    constructor <;>
    intro hh <;>
    first
      | rfl
      | (exact absurd hh (by decide))
      | (constructor <;> linarith)
      | linarith
      | (exfalso; rcases hh with ⟨ha, hb⟩; linarith)
      | (exfalso; linarith)

set_option maxHeartbeats 1000000 in
theorem classify_dirt_iff (v : ℚ) :
    Terrain.classify v = TerrainClass.dirt ↔ 0.48 ≤ (v + 1) / 2 ∧ (v + 1) / 2 < 0.65 := by
  simp only [Terrain.classify]
  split_ifs with h1 h2 h3 h4 h5 <;>
    constructor <;>
    intro hh <;>
    first
      | rfl
      | (exact absurd hh (by decide))
      | (constructor <;> linarith)
      | linarith
      | (exfalso; rcases hh with ⟨ha, hb⟩; linarith)
      | (exfalso; linarith)

set_option maxHeartbeats 1000000 in
theorem classify_rock_iff (v : ℚ) :
    Terrain.classify v = TerrainClass.rock ↔ 0.65 ≤ (v + 1) / 2 ∧ (v + 1) / 2 < 0.75 := by
  simp only [Terrain.classify]
  split_ifs with h1 h2 h3 h4 h5 <;>
    constructor <;>
    intro hh <;>
    first
      | rfl
      | (exact absurd hh (by decide))
      | (constructor <;> linarith)
      | linarith
      | (exfalso; rcases hh with ⟨ha, hb⟩; linarith)
      | (exfalso; linarith)

set_option maxHeartbeats 1000000 in
theorem classify_snow_iff (v : ℚ) :
    Terrain.classify v = TerrainClass.snow ↔ 0.75 ≤ (v + 1) / 2 := by
  simp only [Terrain.classify]
  split_ifs with h1 h2 h3 h4 h5 <;>
    constructor <;>
    intro hh <;>
    first
      | rfl
      | (exact absurd hh (by decide))
      | (constructor <;> linarith)
      | linarith
      | (exfalso; rcases hh with ⟨ha, hb⟩; linarith)
      | (exfalso; linarith)

set_option maxHeartbeats 1000000 in
theorem classify2_rock_iff (v : ℚ) :
    Terrain.classify2 v = TerrainClass.rock ↔ 0.65 ≤ (v + 1) / 2 ∧ (v + 1) / 2 < 0.95 := by
  simp only [Terrain.classify2]
  split_ifs with h1 h2 h3 h4 h5 <;>
    constructor <;>
    intro hh <;>
    first
      | rfl
      | (exact absurd hh (by decide))
      | (constructor <;> linarith)
      | linarith
      | (exfalso; rcases hh with ⟨ha, hb⟩; linarith)
      | (exfalso; linarith)

set_option maxHeartbeats 1000000 in
theorem classify2_snow_iff (v : ℚ) :
    Terrain.classify2 v = TerrainClass.snow ↔ 0.95 ≤ (v + 1) / 2 := by
  simp only [Terrain.classify2]
  split_ifs with h1 h2 h3 h4 h5 <;>
    constructor <;>
    intro hh <;>
    first
      | rfl
      | (exact absurd hh (by decide))
      | (constructor <;> linarith)
      | linarith
      | (exfalso; rcases hh with ⟨ha, hb⟩; linarith)
      | (exfalso; linarith)

set_option maxHeartbeats 1000000 in
theorem classify_mono (v w : ℚ) (h : v ≤ w) :
    (Terrain.classify v).rank ≤ (Terrain.classify w).rank := by
  simp only [Terrain.classify]
  split_ifs
  all_goals simp only [TerrainClass.rank]
  all_goals try norm_num
  all_goals exfalso
  all_goals linarith

set_option maxHeartbeats 1000000 in
theorem classify2_mono (v w : ℚ) (h : v ≤ w) :
    (Terrain.classify2 v).rank ≤ (Terrain.classify2 w).rank := by
  simp only [Terrain.classify2]
  split_ifs
  all_goals simp only [TerrainClass.rank]
  all_goals try norm_num
  all_goals exfalso
  all_goals linarith

theorem getColor_eq_hex (v : ℚ) : Terrain.getColor v = (Terrain.classify v).hex := by
  simp only [Terrain.getColor, Terrain.classify]
  split_ifs <;> rfl

theorem getColor2_eq_hex (v : ℚ) : Terrain.getColor2 v = (Terrain.classify2 v).hex := by
  simp only [Terrain.getColor2, Terrain.classify2]
  split_ifs <;> rfl

/-- C8: the classification behind `Terrain.getColor` is a non-decreasing
step function of the height value (in both variants), its classes are
characterized by the documented half-open intervals of
`norm = (value + 1) / 2` (Rock/Snow boundary 0.75 in the first variant,
0.95 in the second), a norm of exactly 0.43 classifies as Sand and not
Water, and `getColor` returns exactly the hex fill of the class. -/
theorem classification_step_function :
    (∀ v w : ℚ, v ≤ w → (Terrain.classify v).rank ≤ (Terrain.classify w).rank) ∧
    (∀ v w : ℚ, v ≤ w → (Terrain.classify2 v).rank ≤ (Terrain.classify2 w).rank) ∧
    (∀ v : ℚ, Terrain.classify v = TerrainClass.water ↔ (v + 1) / 2 < 0.43) ∧
    (∀ v : ℚ, Terrain.classify v = TerrainClass.sand ↔
      0.43 ≤ (v + 1) / 2 ∧ (v + 1) / 2 < 0.45) ∧
    (∀ v : ℚ, Terrain.classify v = TerrainClass.grass ↔
      0.45 ≤ (v + 1) / 2 ∧ (v + 1) / 2 < 0.48) ∧
    (∀ v : ℚ, Terrain.classify v = TerrainClass.dirt ↔
      0.48 ≤ (v + 1) / 2 ∧ (v + 1) / 2 < 0.65) ∧
    (∀ v : ℚ, Terrain.classify v = TerrainClass.rock ↔
      0.65 ≤ (v + 1) / 2 ∧ (v + 1) / 2 < 0.75) ∧
    (∀ v : ℚ, Terrain.classify v = TerrainClass.snow ↔ 0.75 ≤ (v + 1) / 2) ∧
    (∀ v : ℚ, Terrain.classify2 v = TerrainClass.rock ↔
      0.65 ≤ (v + 1) / 2 ∧ (v + 1) / 2 < 0.95) ∧
    (∀ v : ℚ, Terrain.classify2 v = TerrainClass.snow ↔ 0.95 ≤ (v + 1) / 2) ∧
    (∀ v : ℚ, (v + 1) / 2 = 0.43 → Terrain.classify v = TerrainClass.sand) ∧
    (∀ v : ℚ, Terrain.getColor v = (Terrain.classify v).hex) ∧
    (∀ v : ℚ, Terrain.getColor2 v = (Terrain.classify2 v).hex) := by
  refine ⟨classify_mono, classify2_mono, classify_water_iff, classify_sand_iff,
    classify_grass_iff, classify_dirt_iff, classify_rock_iff, classify_snow_iff,
    classify2_rock_iff, classify2_snow_iff, ?_, getColor_eq_hex, getColor2_eq_hex⟩
  intro v hv
  rw [classify_sand_iff, hv]
  norm_num

/-- Witness for C8: the monotone step at the concrete pair 0 ≤ 1, and the
Sand boundary at the concrete value -0.14 whose norm is exactly 0.43. -/
theorem classification_step_function_witness :
    (0 : ℚ) ≤ 1 ∧ (Terrain.classify 0).rank ≤ (Terrain.classify 1).rank ∧
    ((-0.14 : ℚ) + 1) / 2 = 0.43 ∧ Terrain.classify (-0.14) = TerrainClass.sand := by
  have h01 : (0 : ℚ) ≤ 1 := by norm_num
  have hb : ((-0.14 : ℚ) + 1) / 2 = 0.43 := by norm_num
  refine ⟨h01, classification_step_function.1 0 1 h01, hb, ?_⟩
  exact (classification_step_function.2.2.2.2.2.2.2.2.2.2.1) (-0.14) hb

/-- C9: for every terrain state and query coordinate,
`Terrain.isPositionWalkable` returns (on the same fetched value and with the
same state effect) exactly the test that the classification of the value is
not Water; the direct threshold `(value + 1) / 2 >= 0.43` agrees with the
classification-based definition on all inputs. -/
theorem walkable_iff_not_water (t : Terrain) (x y : ℚ) :
    t.isPositionWalkable x y =
      (t.getValue x y).map fun r =>
        (decide (Terrain.classify r.1 ≠ TerrainClass.water), r.2) := by
  unfold Terrain.isPositionWalkable
  cases h : t.getValue x y with
  | none => simp
  | some r =>
      obtain ⟨v, t2⟩ := r
      simp only [Option.map_some']
      have hiff : ((v + 1) / 2 ≥ 0.43) ↔ (Terrain.classify v ≠ TerrainClass.water) := by
        rw [ne_eq, classify_water_iff, not_lt]
      rw [decide_eq_decide.mpr hiff]

/- ### Normalization of fbm -/

theorem fbmIter_bounds (nz : ℚ → ℚ → ℚ) (x y lac gain : ℚ) (hg : 0 ≤ gain)
    (hnz : ∀ a b, -1 ≤ nz a b ∧ nz a b ≤ 1) (n : ℕ) :
    0 ≤ (fbmIter nz x y lac gain n).amplitude ∧
    |(fbmIter nz x y lac gain n).value| ≤ (fbmIter nz x y lac gain n).maxValue ∧
    (1 ≤ n → 1 ≤ (fbmIter nz x y lac gain n).maxValue) := by
  induction n with
  | zero =>
      refine ⟨by norm_num [fbmIter], by norm_num [fbmIter], ?_⟩
      intro hcon
      exact absurd hcon (by norm_num)
  | succ n ih =>
      obtain ⟨iha, ihv, ihm⟩ := ih
      simp only [fbmIter, fbmStep]
      have h1 : |nz (x * (fbmIter nz x y lac gain n).frequency)
          (y * (fbmIter nz x y lac gain n).frequency)| ≤ 1 :=
        abs_le.mpr (hnz _ _)
      have h3 : |nz (x * (fbmIter nz x y lac gain n).frequency)
            (y * (fbmIter nz x y lac gain n).frequency) *
            (fbmIter nz x y lac gain n).amplitude| ≤
          (fbmIter nz x y lac gain n).amplitude := by
        rw [abs_mul, abs_of_nonneg iha]
        calc |nz (x * (fbmIter nz x y lac gain n).frequency)
              (y * (fbmIter nz x y lac gain n).frequency)| *
              (fbmIter nz x y lac gain n).amplitude
            ≤ 1 * (fbmIter nz x y lac gain n).amplitude :=
              mul_le_mul_of_nonneg_right h1 iha
          _ = (fbmIter nz x y lac gain n).amplitude := one_mul _
      refine ⟨mul_nonneg iha hg, ?_, ?_⟩
      · calc |(fbmIter nz x y lac gain n).value +
              nz (x * (fbmIter nz x y lac gain n).frequency)
                (y * (fbmIter nz x y lac gain n).frequency) *
                (fbmIter nz x y lac gain n).amplitude|
            ≤ |(fbmIter nz x y lac gain n).value| +
              |nz (x * (fbmIter nz x y lac gain n).frequency)
                (y * (fbmIter nz x y lac gain n).frequency) *
                (fbmIter nz x y lac gain n).amplitude| := abs_add _ _
          _ ≤ (fbmIter nz x y lac gain n).maxValue +
              (fbmIter nz x y lac gain n).amplitude := by linarith
      · intro hsucc
        rcases Nat.eq_zero_or_pos n with hn0 | hnpos
        · subst hn0
          norm_num [fbmIter]
        · have := ihm hnpos
          linarith

/-- C7 (amended): for every noise function whose samples all lie in
`[-1, 1]`, every octave count of at least 1, every lacunarity and every
NON-NEGATIVE gain, the fbm result (octave sum divided by the accumulated
amplitude) lies in `[-1, 1]`, independent of the octave count. -/
theorem fbm_normalized (nz : ℚ → ℚ → ℚ) (octaves : ℕ) (lac gain x y : ℚ)
    (hoct : 1 ≤ octaves) (hg : 0 ≤ gain)
    (hnz : ∀ a b, -1 ≤ nz a b ∧ nz a b ≤ 1) :
    -1 ≤ fbm x y nz octaves lac gain ∧ fbm x y nz octaves lac gain ≤ 1 := by
  obtain ⟨hamp, hval, hmax⟩ := fbmIter_bounds nz x y lac gain hg hnz octaves
  have hm : 1 ≤ (fbmIter nz x y lac gain octaves).maxValue := hmax hoct
  have hmpos : 0 < (fbmIter nz x y lac gain octaves).maxValue := by linarith
  obtain ⟨hlo, hhi⟩ := abs_le.mp hval
  unfold fbm
  constructor
  · rw [le_div_iff₀ hmpos]
    linarith
  · rw [div_le_one hmpos]
    linarith

/-- Witness for the amended C7 at the constant-zero noise function with
2 octaves, lacunarity 2, gain 1/2 at the origin. -/
theorem fbm_normalized_witness :
    (1 : ℕ) ≤ 2 ∧ (0 : ℚ) ≤ 1/2 ∧
    (∀ a b : ℚ, -1 ≤ (fun _ _ : ℚ => (0 : ℚ)) a b ∧ (fun _ _ : ℚ => (0 : ℚ)) a b ≤ 1) ∧
    (-1 ≤ fbm 0 0 (fun _ _ : ℚ => (0 : ℚ)) 2 2 (1/2) ∧
      fbm 0 0 (fun _ _ : ℚ => (0 : ℚ)) 2 2 (1/2) ≤ 1) := by
  have hnz : ∀ a b : ℚ, -1 ≤ (fun _ _ : ℚ => (0 : ℚ)) a b ∧
      (fun _ _ : ℚ => (0 : ℚ)) a b ≤ 1 := fun a b => by norm_num
  exact ⟨by norm_num, by norm_num, hnz,
    fbm_normalized (fun _ _ : ℚ => (0 : ℚ)) 2 2 (1/2) 0 0 (by norm_num) (by norm_num) hnz⟩

/-- C7 as stated (for every gain) is refuted: `nzSwitch` only takes the
values 1 and -1, yet with the negative gain -1/2 and 2 octaves the fbm
result at (1, 0) with lacunarity 2 is 3, far outside `[-1, 1]` -
the accumulated maxValue 1/2 no longer bounds the accumulated value. -/
theorem fbm_gain_counterexample :
    (∀ a b : ℚ, -1 ≤ nzSwitch a b ∧ nzSwitch a b ≤ 1) ∧ (1 : ℕ) ≤ 2 ∧
    fbm 1 0 nzSwitch 2 2 (-1/2) = 3 ∧ ¬ (fbm 1 0 nzSwitch 2 2 (-1/2) ≤ 1) := by
  have heval : fbm 1 0 nzSwitch 2 2 (-1/2) = 3 := by
    norm_num [fbm, fbmIter, fbmStep, nzSwitch]
  refine ⟨?_, by norm_num, heval, by rw [heval]; norm_num⟩
  intro a b
  unfold nzSwitch
  split_ifs <;> norm_num

/- ### The permutation table of the noise constructor -/

theorem firstHalf_length (rnd : ℕ → ℚ) : (ImprovedNoise.firstHalf rnd).length = 256 := by
  simp [ImprovedNoise.firstHalf]

/-- C4 (amended): for every legal stream of `Math.random()` outputs, the
constructed table has length 512, every entry lies in `[0, 256)`, and the
entries at indices 256..511 mirror those at 0..255.  (The model is pure, so
the table is trivially never mutated after construction.) -/
theorem table_entries_and_mirror (rnd : ℕ → ℚ) (h : ∀ i, 0 ≤ rnd i ∧ rnd i < 1) :
    (ImprovedNoise.makeTable rnd).length = 512 ∧
    (∀ v ∈ ImprovedNoise.makeTable rnd, v < 256) ∧
    (∀ i < 256, (ImprovedNoise.makeTable rnd)[i + 256]? =
      (ImprovedNoise.makeTable rnd)[i]?) := by
  have hhalf : ∀ w ∈ ImprovedNoise.firstHalf rnd, w < 256 := by
    intro w hw
    simp only [ImprovedNoise.firstHalf, List.mem_map, List.mem_range] at hw
    obtain ⟨i, hi, rfl⟩ := hw
    unfold ImprovedNoise.seedEntry
    have h2 := (h i).2
    have hfl : ⌊rnd i * 256⌋ < 256 := by
      apply Int.floor_lt.mpr
      push_cast
      linarith
    omega
  refine ⟨by simp [ImprovedNoise.makeTable, firstHalf_length], ?_, ?_⟩
  · intro v hv
    have hv2 : v ∈ ImprovedNoise.firstHalf rnd := by
      simpa [ImprovedNoise.makeTable] using hv
    exact hhalf v hv2
  · intro i hi
    simp only [ImprovedNoise.makeTable]
    rw [List.getElem?_append, List.getElem?_append]
    rw [if_neg (by rw [firstHalf_length]; omega), if_pos (by rw [firstHalf_length]; omega)]
    rw [firstHalf_length]
    norm_num

/-- Witness for the amended C4 at the constant stream 1/2. -/
theorem table_entries_and_mirror_witness :
    (∀ i : ℕ, 0 ≤ (fun _ : ℕ => (1/2 : ℚ)) i ∧ (fun _ : ℕ => (1/2 : ℚ)) i < 1) ∧
    ((ImprovedNoise.makeTable (fun _ : ℕ => (1/2 : ℚ))).length = 512 ∧
     (∀ v ∈ ImprovedNoise.makeTable (fun _ : ℕ => (1/2 : ℚ)), v < 256) ∧
     (∀ i < 256, (ImprovedNoise.makeTable (fun _ : ℕ => (1/2 : ℚ)))[i + 256]? =
       (ImprovedNoise.makeTable (fun _ : ℕ => (1/2 : ℚ)))[i]?)) := by
  have h : ∀ i : ℕ, 0 ≤ (fun _ : ℕ => (1/2 : ℚ)) i ∧ (fun _ : ℕ => (1/2 : ℚ)) i < 1 :=
    fun i => by norm_num
  exact ⟨h, table_entries_and_mirror (fun _ : ℕ => (1/2 : ℚ)) h⟩

/-- C4 as stated is refuted: the constructor draws the 256 entries
independently, so for the legal random stream that always returns 0 every
entry is 0 and the first half of the table is not a permutation of 0..255
(the value 1 never occurs). -/
theorem table_not_permutation :
    (∀ i : ℕ, 0 ≤ zeroStream i ∧ zeroStream i < 1) ∧
    ¬ List.Perm ((ImprovedNoise.makeTable zeroStream).take 256) (List.range 256) := by
  refine ⟨fun i => by norm_num [zeroStream], ?_⟩
  intro hperm
  have htab : (ImprovedNoise.makeTable zeroStream).take 256 = List.replicate 256 0 := by
    have hseed : ImprovedNoise.seedEntry ((0 : ℚ)) = 0 := by
      simp [ImprovedNoise.seedEntry]
    have hfh : ImprovedNoise.firstHalf zeroStream = List.replicate 256 0 := by
      unfold ImprovedNoise.firstHalf zeroStream
      rw [hseed]
      have := List.map_const (List.range 256) (0 : ℕ)
      simpa using this
    unfold ImprovedNoise.makeTable
    rw [hfh]
    exact List.take_left' (List.length_replicate 256 0)
  have hcount := hperm.count_eq 1
  rw [htab] at hcount
  have hzero : (List.replicate 256 (0 : ℕ)).count 1 = 0 := by
    rw [List.count_replicate]
    decide
  have hone : (List.range 256).count 1 = 1 :=
    List.count_eq_one_of_mem (List.nodup_range 256) (by simp)
  omega

/- ### Index bounds of the noise lookups -/

theorem latticeCoord_lt (z : ℚ) : ImprovedNoise.latticeCoord z < 256 := by
  unfold ImprovedNoise.latticeCoord
  have h1 := Int.emod_nonneg ⌊z⌋ (show (256 : ℤ) ≠ 0 by norm_num)
  have h2 := Int.emod_lt_of_pos ⌊z⌋ (show (0 : ℤ) < 256 by norm_num)
  omega

theorem getD_lt_of_entries_lt (p : List ℕ) (hp : ∀ v ∈ p, v < 256) (i : ℕ) :
    p.getD i 0 < 256 := by
  rcases hidx : p[i]? with _ | v
  · simp [List.getD_eq_getElem?_getD, hidx]
  · rw [List.getD_eq_getElem?_getD, hidx]
    exact hp v (List.getElem?_mem hidx)

/-- C10: when every table entry is below 256 (as the constructor
guarantees) and the table has length 512, all six indices used by a noise
lookup - X, X+1, A, A+1, B, B+1 - lie in `[0, 512)`, i.e. strictly below
the table length, so no lookup of `ImprovedNoise.noise` accesses a missing
element. -/
theorem noise_indices_in_bounds (p : List ℕ) (hp : ∀ v ∈ p, v < 256)
    (hl : p.length = 512) (x y : ℚ) :
    ImprovedNoise.latticeCoord x < p.length ∧
    ImprovedNoise.latticeCoord x + 1 < p.length ∧
    ImprovedNoise.latticeCoord y < p.length ∧
    ImprovedNoise.cornerA p x y < p.length ∧
    ImprovedNoise.cornerA p x y + 1 < p.length ∧
    ImprovedNoise.cornerB p x y < p.length ∧
    ImprovedNoise.cornerB p x y + 1 < p.length := by
  have hx := latticeCoord_lt x
  have hy := latticeCoord_lt y
  have hA := getD_lt_of_entries_lt p hp (ImprovedNoise.latticeCoord x)
  have hB := getD_lt_of_entries_lt p hp (ImprovedNoise.latticeCoord x + 1)
  unfold ImprovedNoise.cornerA ImprovedNoise.cornerB
  omega

/-- Witness for C10 at the all-zero table of length 512 and the
query point (-7/2, 22/7). -/
theorem noise_indices_in_bounds_witness :
    (∀ v ∈ List.replicate 512 (0 : ℕ), v < 256) ∧
    (List.replicate 512 (0 : ℕ)).length = 512 ∧
    (ImprovedNoise.latticeCoord (-7/2) < (List.replicate 512 (0 : ℕ)).length ∧
     ImprovedNoise.latticeCoord (-7/2) + 1 < (List.replicate 512 (0 : ℕ)).length ∧
     ImprovedNoise.latticeCoord (22/7) < (List.replicate 512 (0 : ℕ)).length ∧
     ImprovedNoise.cornerA (List.replicate 512 (0 : ℕ)) (-7/2) (22/7) <
       (List.replicate 512 (0 : ℕ)).length ∧
     ImprovedNoise.cornerA (List.replicate 512 (0 : ℕ)) (-7/2) (22/7) + 1 <
       (List.replicate 512 (0 : ℕ)).length ∧
     ImprovedNoise.cornerB (List.replicate 512 (0 : ℕ)) (-7/2) (22/7) <
       (List.replicate 512 (0 : ℕ)).length ∧
     ImprovedNoise.cornerB (List.replicate 512 (0 : ℕ)) (-7/2) (22/7) + 1 <
       (List.replicate 512 (0 : ℕ)).length) := by
  have hp : ∀ v ∈ List.replicate 512 (0 : ℕ), v < 256 := by
    intro v hv
    rw [List.eq_of_mem_replicate hv]
    norm_num
  have hl : (List.replicate 512 (0 : ℕ)).length = 512 := List.length_replicate 512 0
  exact ⟨hp, hl, noise_indices_in_bounds (List.replicate 512 0) hp hl (-7/2) (22/7)⟩

/-- Witness for C1 at the coordinate pair (3, -4) with 2 calls. -/
theorem getChunk_at_most_once_generation_witness :
    (1 : ℕ) ≤ 2 ∧
    ((Terrain.callChunkN (3, -4) 2 (Terrain.make (List.replicate 512 0))).2.log.count
        (3, -4) = 1 ∧
     (Terrain.callChunkN (3, -4) 2 (Terrain.make (List.replicate 512 0))).1 =
       List.replicate 2 (Chunk.make (3, -4).1 (3, -4).2 20 16 (List.replicate 512 0)) ∧
     lookupChunk (3, -4)
         (Terrain.callChunkN (3, -4) 2 (Terrain.make (List.replicate 512 0))).2.chunks =
       some (Chunk.make (3, -4).1 (3, -4).2 20 16 (List.replicate 512 0)) ∧
     (∀ (t : Terrain) (c2 : ℤ × ℤ) (ch : Chunk),
        lookupChunk (3, -4) t.chunks = some ch →
        lookupChunk (3, -4) ((t.getChunk c2.1 c2.2).2).chunks = some ch)) :=
  ⟨by norm_num,
    getChunk_at_most_once_generation (List.replicate 512 0) (3, -4) 2 (by norm_num)⟩

/-- Witness for C2 at chunk size 16 and the coordinates (-37/4, 5/3). -/
theorem decomposition_bijection_witness :
    (0 : ℕ) < 16 ∧
    (Terrain.chunkCoord 16 (-37/4) * (16 : ℤ) + Terrain.localCoord 16 (-37/4) =
        ⌊(-37/4 : ℚ)⌋ ∧
     Terrain.chunkCoord 16 (5/3) * (16 : ℤ) + Terrain.localCoord 16 (5/3) =
        ⌊(5/3 : ℚ)⌋ ∧
     0 ≤ Terrain.localCoord 16 (-37/4) ∧ Terrain.localCoord 16 (-37/4) < (16 : ℤ) ∧
     0 ≤ Terrain.localCoord 16 (5/3) ∧ Terrain.localCoord 16 (5/3) < (16 : ℤ) ∧
     ((Chunk.generateTiles (Terrain.chunkCoord 16 (-37/4)) (Terrain.chunkCoord 16 (5/3)) 16
          (List.replicate 512 0))[(Terrain.localCoord 16 (5/3)).toNat]?.bind
        fun row => row[(Terrain.localCoord 16 (-37/4)).toNat]?) =
      some (fbm ((⌊(-37/4 : ℚ)⌋ : ℚ) * 0.03) ((⌊(5/3 : ℚ)⌋ : ℚ) * 0.03)
        (ImprovedNoise.noise (List.replicate 512 0)) 8 2.1 0.45)) :=
  ⟨by norm_num, decomposition_bijection 16 (by norm_num) (-37/4) (5/3) (List.replicate 512 0)⟩

end Game
